import Mathlib

/-!
Verification of the file-handling core of forskscope (`src-tauri/src/core/file.rs`).

Shallow embedding conventions:
* File contents are byte buffers, modelled as `List Nat` (each element a byte value).
* The filesystem, the statistical charset detector (`chardetng`/`encoding_rs`), the
  spreadsheet-diff library (`sheets_diff`), the local-time formatter (`chrono`) and the
  external `binary_comparison_only` predicate are external collaborators: they are
  modelled as function-valued parameters, total at their interface boundary as the
  spec describes them.
* Rust functions that can panic (`unwrap`/`expect`) are modelled with `Option`:
  `none` is a panic, `some` a normal return.  Fallible functions returning
  `Result<T, String>` are modelled with `Except String T`.
-/

set_option linter.unusedVariables false

/-- One side of a comparison after decoding (struct `ReadContent` of `core/types.rs`,
declared outside the provided sources; fields per the spec: charset label and content). -/
structure ReadContent where
  charset : String
  content : String
deriving DecidableEq

/-- One file entry of a directory listing (struct `FileAttr` of `core/types.rs`,
declared outside the provided sources; fields per the spec). -/
structure FileAttr where
  name : String
  bytes_size : String
  human_readable_size : String
  last_modified : String
  binary_comparison_only : Bool
deriving DecidableEq

/-- Result of `list_dir` (struct `ListDirResponse` of `core/types.rs`,
declared outside the provided sources; fields per the spec). -/
structure ListDirResponse where
  current_dir : String
  dirs : List String
  files : List FileAttr
deriving DecidableEq

/-- One line of a unified-diff segment of the external `sheets_diff` library
(`pos` and `text` are optional, as consumed by `excel_content`). -/
structure UnifiedDiffLine where
  pos : Option String
  text : Option String
deriving DecidableEq

/-- One per-sheet diff segment of the external `sheets_diff` library:
a title and a list of changed lines. -/
structure SplitUnifiedDiffContent where
  title : String
  lines : List UnifiedDiffLine
deriving DecidableEq

deriving instance DecidableEq for Except

/-- Modelled from the spec: the statistical encoding detector (`chardetng`) fed the whole
buffer with `last = true`, together with the replacement-based decoder of the guessed
encoding (`encoding_rs`): `guess` returns the guessed encoding's name, `decode` returns
the decoded string and the `had_errors` flag.  Both are total functions: the external
decode replaces undecodable sequences rather than failing. -/
structure CharsetDetector where
  guess : List Nat → String
  decode : List Nat → String × Bool

/-- Modelled filesystem: `pathExists` is `Path::exists`, `read` gives the full byte
content of a path (`none` when the path cannot be opened/read). -/
structure Fs where
  pathExists : String → Bool
  read : String → Option (List Nat)

/-- Environment of `filepaths_content`: the filesystem, the charset detector and the
external spreadsheet-diff capability (`sheets_diff`: `unified_diff(Diff::new(old, new)).split()`,
modelled from the spec as an opaque total function returning the old-side and new-side
segment lists). -/
structure CompareEnv where
  fs : Fs
  detector : CharsetDetector
  xlsxDiff : String → String → List SplitUnifiedDiffContent × List SplitUnifiedDiffContent

/-- Metadata of one directory entry (`std::fs::Metadata`): directory flag, byte length,
and modification time as signed nanoseconds relative to the UNIX epoch
(`none` models `Metadata::modified()` returning an error). -/
structure EntryMeta where
  is_dir : Bool
  len : Nat
  modified : Option Int
deriving DecidableEq

/-- One directory entry (`std::fs::DirEntry`): file name, full path, and its metadata
(`none` models `DirEntry::metadata()` returning an error). -/
structure DirEntryModel where
  name : String
  path : String
  meta : Option EntryMeta
deriving DecidableEq

/-- One item yielded by `std::fs::read_dir`: either a directory entry or an I/O error. -/
inductive EntryRead where
  | ok : DirEntryModel → EntryRead
  | err : String → EntryRead
deriving DecidableEq

/-- Environment of `list_dir`: the resolved current working directory
(`std::env::current_dir`), path canonicalization (`none` models an error),
the local-time formatter (modelled from the spec: `chrono`'s
`Local.timestamp_nanos(..).format("%Y-%m-%d %H:%M:%S")`, external), and the external
`binary_comparison_only` predicate of `core/diff.rs` (outside the provided sources,
used verbatim per the spec). -/
structure DirCtx where
  cwd : String
  canonicalize : String → Option String
  formatLocalTime : Int → String
  binaryComparisonOnly : String → Bool

/-- default charset (`UTF8_CHARSET` in `file.rs`) -/
def UTF8_CHARSET : String := "UTF-8"

/-- label text on charset on non text file (`NOT_TEXTFILE_CHARSET` in `file.rs`) -/
def NOT_TEXTFILE_CHARSET : String := "(bytes array)"

/-- Rust `slice::windows(2)`: all contiguous pairs of adjacent elements. -/
def windows2 : List α → List (α × α)
  | a :: b :: rest => (a, b) :: windows2 (b :: rest)
  | _ => []

/-- Helper for `chunksOf`: fuel-driven so that it is structurally recursive and
kernel-reducible; the fuel is always instantiated with the list length. -/
def chunksOfAux (n : Nat) : Nat → List α → List (List α)
  | 0, _ => []
  | _ + 1, [] => []
  | fuel + 1, a :: l => (a :: l.take (n - 1)) :: chunksOfAux n fuel (l.drop (n - 1))

/-- Rust `slice::chunks(n)` for `n ≥ 1`: split into consecutive chunks of `n`
elements, the last chunk possibly shorter. -/
def chunksOf (n : Nat) (l : List α) : List (List α) := chunksOfAux n l.length l

/-- Uppercase hexadecimal digit, as produced by Rust's `{:X}` formatting. -/
def hexDigitU (n : Nat) : Char :=
  if n < 10 then Char.ofNat (48 + n) else Char.ofNat (55 + n)

/-- Rust `format!("{:02X}", byte)` for a byte value: exactly two uppercase hex digits. -/
def hexByteChars (b : Nat) : List Char := [hexDigitU (b / 16), hexDigitU (b % 16)]

/-- The hex grid built by the binary branch of `textfile_content`: for each 16-byte
chunk, each byte as `format!("{:02X} ", byte)` (two uppercase hex digits and a space),
then a newline, all pushed onto one string. -/
def hexGrid (buffer : List Nat) : String :=
  String.mk ((chunksOf 16 buffer).flatMap fun chunk =>
    (chunk.flatMap fun byte => hexByteChars byte ++ [' ']) ++ ['\n'])

/-- Claim-side rendering of the hex dump (claim C1's wording, with the trailing space
the code emits after the last byte of each line): 16 bytes per line, two uppercase hex
digits per byte, space-separated, a trailing space, each line terminated by a newline. -/
def hexDumpSpec (buffer : List Nat) : String :=
  String.mk ((chunksOf 16 buffer).flatMap fun chunk =>
    List.intercalate [' '] (chunk.map hexByteChars) ++ [' ', '\n'])

/-- One multi-byte step of strict UTF-8 validation (lead byte `b ≥ 0x80`): returns
the decoded Unicode scalar value and the bytes remaining after the sequence, or `none`
when the bytes are not a valid multi-byte sequence.  The standard UTF-8 patterns:
2-byte `C2..DF` + continuation; 3-byte `E0/A0..BF`, `E1..EC/80..BF`, `ED/80..9F`,
`EE..EF/80..BF` + continuation; 4-byte `F0/90..BF`, `F1..F3/80..BF`, `F4/80..8F` + two
continuations; continuations are `80..BF`. -/
def utf8Step (b : Nat) (rest : List Nat) : Option (Nat × List Nat) :=
  if 0xC2 ≤ b && b ≤ 0xDF then
    match rest with
    | c1 :: rest2 =>
      if 0x80 ≤ c1 && c1 ≤ 0xBF then some ((b - 0xC0) * 64 + (c1 - 0x80), rest2) else none
    | [] => none
  else if 0xE0 ≤ b && b ≤ 0xEF then
    match rest with
    | c1 :: c2 :: rest2 =>
      if ((if b = 0xE0 then 0xA0 else 0x80) ≤ c1 && c1 ≤ (if b = 0xED then 0x9F else 0xBF))
          && (0x80 ≤ c2 && c2 ≤ 0xBF) then
        some ((b - 0xE0) * 4096 + (c1 - 0x80) * 64 + (c2 - 0x80), rest2)
      else none
    | _ => none
  else if 0xF0 ≤ b && b ≤ 0xF4 then
    match rest with
    | c1 :: c2 :: c3 :: rest2 =>
      if ((if b = 0xF0 then 0x90 else 0x80) ≤ c1 && c1 ≤ (if b = 0xF4 then 0x8F else 0xBF))
          && ((0x80 ≤ c2 && c2 ≤ 0xBF) && (0x80 ≤ c3 && c3 ≤ 0xBF)) then
        some ((b - 0xF0) * 262144 + (c1 - 0x80) * 4096 + (c2 - 0x80) * 64 + (c3 - 0x80), rest2)
      else none
    | _ => none
  else none

/-- Strict UTF-8 validation and decoding to Unicode scalar values, modelling
`std::str::from_utf8` (external to `file.rs`): ASCII bytes pass through, multi-byte
sequences go through `utf8Step`.  Fuel-driven so that it is structurally recursive and
kernel-reducible; each step consumes at least one byte, so fuel equal to the buffer
length (as supplied by `utf8DecodeS`) never runs out. -/
def utf8DecodeAux : Nat → List Nat → Option (List Nat)
  | _, [] => some []
  | 0, _ :: _ => none
  | fuel + 1, b :: rest =>
    if b < 0x80 then
      (utf8DecodeAux fuel rest).map fun vs => b :: vs
    else
      match utf8Step b rest with
      | some (v, rest2) => (utf8DecodeAux fuel rest2).map fun vs => v :: vs
      | none => none

/-- Strict UTF-8 validation and decoding of a whole buffer: `none` exactly on invalid
UTF-8. -/
def utf8DecodeS (bs : List Nat) : Option (List Nat) := utf8DecodeAux bs.length bs

/-- UTF-8 encoding of one Unicode scalar value (the inverse rendering, used to state
that the UTF-8 fast path returns the buffer's bytes verbatim). -/
def utf8EncodeChar (v : Nat) : List Nat :=
  if v < 0x80 then [v]
  else if v < 0x800 then [0xC0 + v / 64, 0x80 + v % 64]
  else if v < 0x10000 then [0xE0 + v / 4096, 0x80 + v / 64 % 64, 0x80 + v % 64]
  else [0xF0 + v / 262144, 0x80 + v / 4096 % 64, 0x80 + v / 64 % 64, 0x80 + v % 64]

/-- UTF-8 encoding of a sequence of Unicode scalar values. -/
def utf8EncodeS : List Nat → List Nat
  | [] => []
  | v :: vs => utf8EncodeChar v ++ utf8EncodeS vs

/-- A sequence of Unicode scalar values as a Lean string. -/
def scalarsToString (vs : List Nat) : String := String.mk (vs.map Char.ofNat)

/-- The bytes consumed by one `BufRead::read_line` call: everything up to and
including the first `0x0A`, or the whole buffer when it has no newline. -/
def firstLine : List Nat → List Nat
  | [] => []
  | b :: rest => if b = 0x0A then [b] else b :: firstLine rest

/-- check if file is text file (`is_textfile` in `file.rs`): open the file and read a
single line; `read_line` succeeds iff the file opens and the bytes of the first line
are valid UTF-8 (`BufRead::read_line` returns `InvalidData` on non-UTF-8 bytes). -/
def is_textfile (fs : Fs) (filepath : String) : Bool :=
  match fs.read filepath with
  | none => false
  | some bytes => (utf8DecodeS (firstLine bytes)).isSome

/-- Rust `str::ends_with` (byte suffix; on valid UTF-8 this equals character-list
suffix, which is how it is modelled here). -/
def strEndsWith (s pat : String) : Bool := pat.data.isSuffixOf s.data

/-- validate file path to compare (`validate_filepath` in `file.rs`). -/
def validate_filepath (fs : Fs) (filepath : String) : Option Bool :=
  if !(fs.pathExists filepath) then none
  else some (is_textfile fs filepath || strEndsWith filepath ".xlsx")

/-- get content from text file (`textfile_content` in `file.rs`), from the byte buffer
read from the file: NUL scan over `windows(2)` (binary branch renders the hex grid),
then strict UTF-8, then the statistical-detector fallback.  The `eprint` diagnostic on
`had_errors` has no effect on the returned value and is not modelled. -/
def textfile_content (D : CharsetDetector) (buffer : List Nat) : ReadContent :=
  let is_binary := (windows2 buffer).any fun window => window.1 == 0x00
  if is_binary then
    { charset := NOT_TEXTFILE_CHARSET, content := hexGrid buffer }
  else
    match utf8DecodeS buffer with
    | some vs => { charset := UTF8_CHARSET, content := scalarsToString vs }
    | none =>
      { charset := D.guess buffer, content := (D.decode buffer).1 }

/-- `textfile_content` at the path level: `File::open(..).expect(..)` and
`read_to_end(..).unwrap()` panic (modelled `none`) when the file cannot be read. -/
def textfile_content_path (env : CompareEnv) (filepath : String) : Option ReadContent :=
  (env.fs.read filepath).map (textfile_content env.detector)

/-- Modelled from the spec: `super::str::bytes_to_hex_dump` (outside the provided
sources); per spec section 4.3 it is the same fixed-width rendering as the binary
branch of `textfile_content`: 16 bytes per line, two uppercase hex digits and a space
per byte, each line terminated by a newline. -/
def bytes_to_hex_dump (bytes : List Nat) : String := hexGrid bytes

/-- read content as binary (`binary_content` in `file.rs`): `fs::read(..).expect(..)`
panics (modelled `none`) when the file cannot be read. -/
def binary_content (fs : Fs) (filepath : String) : Option ReadContent :=
  (fs.read filepath).map fun read_bytes =>
    { charset := "(binary)", content := bytes_to_hex_dump read_bytes }

/-- Modelled from the spec: `ReadContent::default()` (the `Default` derive lives with
the struct in `core/types.rs`, outside the provided sources) — a default/empty
`ReadContent`, both fields empty strings. -/
def readContentDefault : ReadContent := { charset := "", content := "" }

/-- read content from ms excel (`excel_content` in `file.rs`): per segment, the title
followed by each line's `pos` (if present) and `text` (if present), joined by `"\n"`;
the per-segment strings are then collected into one string by plain concatenation
(`collect::<String>()`). -/
def excel_content (split_unified_diff_content : List SplitUnifiedDiffContent) : ReadContent :=
  let content := String.join (split_unified_diff_content.map fun x =>
    String.intercalate "\n" ([x.title] ++ x.lines.flatMap fun l => l.pos.toList ++ l.text.toList))
  { charset := "(Excel)", content := content }

/-- get content from file paths on old file and new file (`filepaths_content` in
`file.rs`).  Branch order as in the source: text/text, text/empty, empty/text,
xlsx/xlsx, binary fallback.  `none` models a panic inside a branch. -/
def filepaths_content (env : CompareEnv) (old new : String) :
    Option (Except String (List ReadContent)) :=
  let old_is_textfile := is_textfile env.fs old
  let new_is_textfile := is_textfile env.fs new
  if old_is_textfile && new_is_textfile then
    match textfile_content_path env old, textfile_content_path env new with
    | some a, some b => some (.ok [a, b])
    | _, _ => none
  else if old_is_textfile && (new == "") then
    match textfile_content_path env old with
    | some a => some (.ok [a, readContentDefault])
    | none => none
  else if (old == "") && new_is_textfile then
    match textfile_content_path env new with
    | some b => some (.ok [readContentDefault, b])
    | none => none
  else if strEndsWith old ".xlsx" && strEndsWith new ".xlsx" then
    let split := env.xlsxDiff old new
    some (.ok [excel_content split.1, excel_content split.2])
  else
    match binary_content env.fs old, binary_content env.fs new with
    | some a, some b => some (.ok [a, b])
    | _, _ => none

/-- The comma-inserting pass of `comma_separated_number`: iterate over the reversed
digit characters with their index, pushing a `','` before every character whose index
is a nonzero multiple of 3. -/
def withCommasRev : List Char → Nat → List Char
  | [], _ => []
  | c :: cs, i => (if i ≠ 0 ∧ i % 3 = 0 then [','] else []) ++ c :: withCommasRev cs (i + 1)

/-- add separator commas to number (`comma_separated_number` in `file.rs`): build the
comma-separated reversal of the decimal digit string, then reverse it back. -/
def comma_separated_number (num : Nat) : String :=
  let num_str := Nat.repr num
  String.mk (withCommasRev num_str.data.reverse 0).reverse

/-- Claim-side grouping (claim C6's wording): split the decimal digits into groups of
three counting from the least-significant digit and join the groups with commas. -/
def commaGroupingSpec (num : Nat) : String :=
  String.mk (List.intercalate [','] (((chunksOf 3 (Nat.repr num).data.reverse).map List.reverse).reverse))

/-- The string with every comma removed. -/
def removeCommas (s : String) : String := String.mk (s.data.filter fun c => c ≠ ',')

/-- Decimal digits of the fraction `r / den` (for `0 < r < den`, `den` a power of two
dividing `10 ^ fuel`): the exact terminating decimal expansion, digit by digit.
Fuel-driven so that it is structurally recursive and kernel-reducible. -/
def fracDigitChars (den : Nat) : Nat → Nat → List Char
  | _, 0 => []
  | r, fuel + 1 =>
    if r = 0 then [] else Nat.digitChar (r * 10 / den) :: fracDigitChars den (r * 10 % den) fuel

/-- convert file size to human readable number (`human_readable_size` in `file.rs`).
The source divides `size as f64` by the unit as `f64`, formats the quotient with
`Display` (`to_string`), splits the result on `"."`, re-parses and comma-groups the
integer part, and truncates the fraction string to at most two characters (`{:.2}`
applied to a `&str` truncates; fuel 64 of `fracDigitChars` covers every denominator up
to `2^64`).  The float pipeline is modelled by exact arithmetic — integer part
`size / den`, fraction digits the exact decimal expansion of `(size % den) / den` —
and this model provably coincides with the `f64` computation for every
`size < 2^47`, the domain on which all theorems about this function are stated:
there the conversion to `f64` is exact (`size < 2^53`), the division by the
power-of-two unit is exact (the quotient `q = size / 2^k`, `k ≤ 40`, keeps the
53-bit significand of `size` and cannot underflow), so `q` is a dyadic rational
`m / 2^40` below `2^7`, whose half-ulp is at most `2^(6-53) = 2^-47 ≈ 7.11e-15`.
`Display` prints the shortest decimal string that parses back to exactly `q`, hence a
value within half an ulp of `q`; the digits the function keeps (the integer part and
the first two fraction digits) can differ between that string and the exact expansion
only if a boundary of the hundredths grid lies strictly between them, and every such
boundary `c/100` distinct from `q` satisfies
`|q - c/100| = |100*m - c*2^40| / (100*2^40) ≥ 1/(100*2^40) ≈ 9.09e-15 > 2^-47`
(and when `q` itself is a short decimal, `Display` prints exactly it); likewise the
string has a fraction part exactly when `q` is not an integer.  So below `2^47` the
printed integer part, the presence of a fraction, and its first two digits agree with
the exact expansion.  Beyond `2^47` (128 TB) the shortest-round-trip rendering may
deviate from the exact expansion in the kept digits, and beyond `2^53` the conversion
`size as f64` itself rounds (at `size = 2^53 + 1` the program prints "8,192 TB" while
exact arithmetic would keep a fraction), so no theorem applies this model there. -/
def human_readable_size (size : Nat) : String :=
  let sel : Nat × String :=
    if size ≥ 1024 ^ 4 then (1024 ^ 4, "TB")
    else if size ≥ 1024 ^ 3 then (1024 ^ 3, "GB")
    else if size ≥ 1024 ^ 2 then (1024 ^ 2, "MB")
    else if size ≥ 1024 then (1024, "KB")
    else (1, "bytes")
  let int_part := size / sel.1
  let frac_rem := size % sel.1
  let comma_separated_int := comma_separated_number int_part
  let comma_separated_size :=
    if frac_rem = 0 then comma_separated_int
    else comma_separated_int ++ "." ++ (String.mk (fracDigitChars sel.1 frac_rem 64)).take 2
  comma_separated_size ++ " " ++ sel.2

/-- Claim-side unit selection (claim C3's wording): the largest unit among TB, GB, MB,
KB, bytes whose 1024-based threshold the byte count meets. -/
def unitForSize (size : Nat) : String :=
  if 1024 ^ 4 ≤ size then "TB"
  else if 1024 ^ 3 ≤ size then "GB"
  else if 1024 ^ 2 ≤ size then "MB"
  else if 1024 ≤ size then "KB"
  else "bytes"

/-- Claim-side divisor (claim C3's wording): the 1024-based threshold of the largest
unit the byte count meets, 1 for plain bytes. -/
def denForSize (size : Nat) : Nat :=
  if 1024 ^ 4 ≤ size then 1024 ^ 4
  else if 1024 ^ 3 ≤ size then 1024 ^ 3
  else if 1024 ^ 2 ≤ size then 1024 ^ 2
  else if 1024 ≤ size then 1024
  else 1

/-- Claim-side rendering of the whole human-readable size (claim C3's wording, with
the corrections the code forces): the integer quotient formatted with thousands
separators, then — only when the division leaves a remainder — a decimal point and the
exact fractional expansion truncated to at most two digits, then the unit label. -/
def humanReadableSpec (size : Nat) : String :=
  comma_separated_number (size / denForSize size)
    ++ (if size % denForSize size = 0 then ""
        else "." ++ (String.mk (fracDigitChars (denForSize size) (size % denForSize size) 64)).take 2)
    ++ (" " ++ unitForSize size)

/-- Boolean lexicographic order on character lists, modelling Rust's `Ord` for `String`
(byte-lexicographic; equal to scalar-value order on valid UTF-8). -/
def listCharLeb : List Char → List Char → Bool
  | [], _ => true
  | _ :: _, [] => false
  | a :: as, b :: bs => if a < b then true else if b < a then false else listCharLeb as bs

/-- Ascending name order used by `Vec::sort` in `list_dir` (`String`'s byte order;
for `FileAttr` the derived order of `core/types.rs` is modelled from the spec:
ordering is by `name`, ascending, case-sensitive byte order). -/
def strLe (a b : String) : Prop := listCharLeb a.data b.data = true

instance : DecidableRel strLe := fun a b => inferInstanceAs (Decidable (_ = true))

/-- Order on `FileAttr` by name (modelled from the spec, see `strLe`). -/
def fileLe (a b : FileAttr) : Prop := strLe a.name b.name

instance : DecidableRel fileLe := fun a b => inferInstanceAs (Decidable (strLe a.name b.name))

/-- `Vec::sort` on the directory names (stable sort; a stable sort is modelled by
insertion sort, which produces the identical output). -/
def sortStrings (l : List String) : List String := List.insertionSort strLe l

/-- `Vec::sort` on the `FileAttr` entries (stable sort by name, see `fileLe`). -/
def sortFiles (l : List FileAttr) : List FileAttr := List.insertionSort fileLe l

/-- The `FileAttr` record built by `list_dir` for a non-directory entry with readable
metadata and modification time `t ≥ 0` nanoseconds after the epoch. -/
def mkFileAttr (ctx : DirCtx) (e : DirEntryModel) (m : EntryMeta) (t : Int) : FileAttr :=
  { name := e.name
    bytes_size := comma_separated_number m.len ++ " bytes"
    human_readable_size := human_readable_size m.len
    last_modified := ctx.formatLocalTime t
    binary_comparison_only := ctx.binaryComparisonOnly e.path }

/-- The entry loop of `list_dir`: returns the unsorted `dirs`, the unsorted `files`
and the printed warnings, or `none` when the loop panics (`metadata.modified().unwrap()`
errs, or `duration_since(UNIX_EPOCH).unwrap()` errs because the modification time is
before the epoch).  An entry whose metadata cannot be read is skipped silently
(the `_ => {}` arm); an entry that fails to enumerate is logged and skipped. -/
def processEntries (ctx : DirCtx) : List EntryRead → Option (List String × List FileAttr × List String)
  | [] => some ([], [], [])
  | .err msg :: rest =>
    (processEntries ctx rest).map fun r =>
      (r.1, r.2.1, ("Failed to get dir/file info due to " ++ msg) :: r.2.2)
  | .ok e :: rest =>
    match e.meta with
    | none => processEntries ctx rest
    | some m =>
      if m.is_dir then
        (processEntries ctx rest).map fun r => (e.name :: r.1, r.2.1, r.2.2)
      else
        match m.modified with
        | none => none
        | some t =>
          if t < 0 then none
          else (processEntries ctx rest).map fun r => (r.1, mkFileAttr ctx e m t :: r.2.1, r.2.2)

/-- target dir (`target_dir` in `file.rs`): the current working directory when the
input is empty, otherwise the canonicalized path (`none` = canonicalization error;
`os_path_buf` is the identity outside Windows and is not modelled further). -/
def target_dir (ctx : DirCtx) (current_dir : String) : Option String :=
  if current_dir == "" then some ctx.cwd else ctx.canonicalize current_dir

/-- list files and directories in directory (`list_dir` in `file.rs`), over the entries
yielded by `std::fs::read_dir`.  Returns `some (.error ..)` when the target directory
cannot be resolved, `none` when the entry loop panics, and otherwise the response with
both lists sorted, paired with the warnings printed while processing. -/
def list_dir (ctx : DirCtx) (current_dir : String) (entries : List EntryRead) :
    Option (Except String (ListDirResponse × List String)) :=
  match target_dir ctx current_dir with
  | none => some (.error ("Invalid path: " ++ current_dir))
  | some td =>
    (processEntries ctx entries).map fun r =>
      .ok ({ current_dir := td, dirs := sortStrings r.1, files := sortFiles r.2.1 }, r.2.2)

/-- The (name, is-directory) pairs of the entries that `list_dir` actually processes:
those that enumerate successfully and whose metadata is readable. -/
def processedPairs (entries : List EntryRead) : List (String × Bool) :=
  entries.filterMap fun
    | .ok e => e.meta.map fun m => (e.name, m.is_dir)
    | .err _ => none

/-- Concrete charset detector used for closed evaluations (the branches it feeds are
external to the claims they witness). -/
def D0 : CharsetDetector := { guess := fun _ => "windows-1252", decode := fun _ => ("", false) }

/-- Concrete filesystem with a single small UTF-8 text file. -/
def fs0 : Fs :=
  { pathExists := fun p => p == "a.txt"
    read := fun p => if p == "a.txt" then some [104, 105, 10] else none }

/-- Concrete comparison environment in which every path reads as the single byte `A`. -/
def envA : CompareEnv :=
  { fs := { pathExists := fun _ => true, read := fun _ => some [65] }
    detector := D0
    xlsxDiff := fun _ _ => ([], []) }

/-- Concrete environment in which both `.xlsx` paths read as small UTF-8 text files
(`hi\n` and `yo\n`), so the line-read heuristic classifies them as text. -/
def envTextXlsx : CompareEnv :=
  { fs :=
      { pathExists := fun _ => true
        read := fun p =>
          if p == "a.xlsx" then some [104, 105, 10]
          else if p == "b.xlsx" then some [121, 111, 10] else none }
    detector := D0
    xlsxDiff := fun _ _ => ([], []) }

/-- Concrete environment in which both `.xlsx` paths read as a non-UTF-8 byte (so the
line-read heuristic rejects them) and the spreadsheet diff returns one segment each. -/
def envBinXlsx : CompareEnv :=
  { fs :=
      { pathExists := fun _ => true
        read := fun p =>
          if p == "a.xlsx" || p == "b.xlsx" then some [255] else none }
    detector := D0
    xlsxDiff := fun _ _ =>
      ([{ title := "@@ Sheet1 @@", lines := [{ pos := some "@@ 1 @@", text := some "cell" }] }],
       [{ title := "@@ Sheet1 @@", lines := [] }]) }

/-- Concrete directory-listing context. -/
def ctx0 : DirCtx :=
  { cwd := "/home/user"
    canonicalize := fun _ => none
    formatLocalTime := fun _ => "1970-01-01 00:00:00"
    binaryComparisonOnly := fun _ => false }

/-- A directory entry whose modification time is one nanosecond before the UNIX epoch. -/
def preEpochEntry : EntryRead :=
  .ok { name := "old.txt", path := "/d/old.txt", meta := some { is_dir := false, len := 3, modified := some (-1) } }

/-- A directory entry whose metadata cannot be read. -/
def badMetaEntry : EntryRead :=
  .ok { name := "x", path := "/d/x", meta := none }

/-- Concrete entry list for the `list_dir` witness: one directory and two files,
deliberately out of name order. -/
def entriesW : List EntryRead :=
  [ .ok { name := "sub", path := "/home/user/sub", meta := some { is_dir := true, len := 0, modified := some 0 } }
  , .ok { name := "b.txt", path := "/home/user/b.txt", meta := some { is_dir := false, len := 5, modified := some 0 } }
  , .ok { name := "a.txt", path := "/home/user/a.txt", meta := some { is_dir := false, len := 1024, modified := some 0 } } ]

/-- The response `list_dir` produces for `entriesW`: the directory listed in `dirs`,
the two files sorted by name with their formatted sizes. -/
def respW : ListDirResponse :=
  { current_dir := "/home/user"
    dirs := ["sub"]
    files :=
      [ { name := "a.txt", bytes_size := "1,024 bytes", human_readable_size := "1 KB",
          last_modified := "1970-01-01 00:00:00", binary_comparison_only := false }
      , { name := "b.txt", bytes_size := "5 bytes", human_readable_size := "5 bytes",
          last_modified := "1970-01-01 00:00:00", binary_comparison_only := false } ] }

/-- Fuel-irrelevance for `chunksOfAux`: any fuel at least the list length gives the
same chunks. -/
theorem chunksOfAux_congr (n : Nat) (f1 : Nat) :
    ∀ (f2 : Nat) (l : List α), l.length ≤ f1 → l.length ≤ f2 →
      chunksOfAux n f1 l = chunksOfAux n f2 l := by
  induction f1 with
  | zero =>
    intro f2 l h1 h2
    have hl : l = [] := List.length_eq_zero.mp (Nat.le_zero.mp h1)
    subst hl
    cases f2 <;> rfl
  | succ f ih =>
    intro f2 l h1 h2
    cases l with
    | nil => cases f2 <;> rfl
    | cons a t =>
      cases f2 with
      | zero => simp at h2
      | succ f2' =>
        simp only [List.length_cons] at h1 h2
        simp only [chunksOfAux]
        congr 1
        apply ih
        · simp only [List.length_drop]; omega
        · simp only [List.length_drop]; omega

/-- Unfolding equation for `chunksOf` on a nonempty list. -/
theorem chunksOf_cons (n : Nat) (a : α) (l : List α) :
    chunksOf n (a :: l) = (a :: l.take (n - 1)) :: chunksOf n (l.drop (n - 1)) := by
  show chunksOfAux n (a :: l).length (a :: l) = _
  simp only [List.length_cons, chunksOfAux]
  congr 1
  apply chunksOfAux_congr
  · simp only [List.length_drop]; omega
  · exact Nat.le_refl _

/-- Every chunk produced by `chunksOf` is nonempty. -/
theorem mem_chunksOf_ne_nil (n : Nat) : ∀ (l c : List α), c ∈ chunksOf n l → c ≠ []
  | [], c, h => by simp [chunksOf, chunksOfAux] at h
  | a :: t, c, h => by
    rw [chunksOf_cons] at h
    rcases List.mem_cons.mp h with h | h
    · subst h; simp
    · exact mem_chunksOf_ne_nil n (t.drop (n - 1)) c h
termination_by l c h => l.length
decreasing_by simp only [List.length_drop, List.length_cons]; omega

/-- `flatMap` respects pointwise-equal functions. -/
theorem flatMap_congr_mem {f g : α → List β} : ∀ (l : List α), (∀ x ∈ l, f x = g x) →
    l.flatMap f = l.flatMap g
  | [], _ => rfl
  | a :: t, h => by
    simp only [List.flatMap_cons]
    rw [h a (List.mem_cons_self a t), flatMap_congr_mem t fun x hx => h x (List.mem_cons_of_mem a hx)]

/-- One hex line: per-byte `"XX "` rendering equals the space-separated hex pairs with
one trailing space (for a nonempty chunk). -/
theorem hexLine_intercalate : ∀ (chunk : List Nat), chunk ≠ [] →
    (chunk.flatMap fun byte => hexByteChars byte ++ [' ']) ++ ['\n'] =
      List.intercalate [' '] (chunk.map hexByteChars) ++ [' ', '\n']
  | [b], _ => by simp [List.intercalate, List.intersperse, hexByteChars]
  | b :: b2 :: t, _ => by
    have ih := hexLine_intercalate (b2 :: t) (by simp)
    rw [List.flatMap_cons, List.append_assoc, ih]
    simp only [List.map_cons, List.intercalate, List.intersperse_cons₂, List.flatten_cons]
    simp [List.append_assoc]

/-- The hex grid the code builds equals the claim-side hex dump rendering. -/
theorem hexGrid_eq_hexDumpSpec (buffer : List Nat) : hexGrid buffer = hexDumpSpec buffer := by
  unfold hexGrid hexDumpSpec
  congr 1
  apply flatMap_congr_mem
  intro chunk hc
  exact hexLine_intercalate chunk (mem_chunksOf_ne_nil 16 buffer chunk hc)

/-- The `windows(2)` NUL scan finds a NUL exactly when some byte other than the final
one is `0x00`. -/
theorem windows2_any_zero : ∀ (l : List Nat),
    ((windows2 l).any fun window => window.1 == 0x00) = true ↔ 0x00 ∈ l.dropLast
  | [] => by simp [windows2]
  | [a] => by simp [windows2]
  | a :: b :: rest => by
    have ih := windows2_any_zero (b :: rest)
    simp only [windows2, List.any_cons, Bool.or_eq_true, beq_iff_eq, List.dropLast_cons₂,
      List.mem_cons] at ih ⊢
    rw [ih]
    constructor
    · rintro (h | h)
      · exact Or.inl h.symm
      · exact Or.inr h
    · rintro (h | h)
      · exact Or.inl h.symm
      · exact Or.inr h

/-- C1 counterexample: the buffer consisting of the single byte `0x00` contains a NUL
byte, yet `textfile_content` labels it "UTF-8" (the `windows(2)` scan never inspects
the final byte as `window[0]`), not "(bytes array)" as the claim states. -/
theorem c1_counterexample :
    (0x00 ∈ ([0x00] : List Nat)) ∧
    (textfile_content D0 [0x00]).charset = UTF8_CHARSET ∧
    (textfile_content D0 [0x00]).charset ≠ NOT_TEXTFILE_CHARSET := by decide

/-- C1 (amended): for every byte buffer with a `0x00` byte among all but the last
byte, `textfile_content` returns charset "(bytes array)" and content equal to the hex
dump: 16 bytes per line, two uppercase hex digits per byte, space-separated with a
trailing space after the last byte of each line, each line terminated by a newline. -/
theorem c1_amended (D : CharsetDetector) (buffer : List Nat)
    (hnul : 0x00 ∈ buffer.dropLast) (hbytes : ∀ b ∈ buffer, b < 256) :
    textfile_content D buffer =
      { charset := NOT_TEXTFILE_CHARSET, content := hexDumpSpec buffer } := by
  have hbin : ((windows2 buffer).any fun window => window.1 == 0x00) = true :=
    (windows2_any_zero buffer).mpr hnul
  unfold textfile_content
  simp only [hbin, if_true]
  rw [hexGrid_eq_hexDumpSpec]

/-- C1 witness: the two-byte buffer `[0x00, 0x41]` has a non-final NUL and is rendered
as the hex line `"00 41 \n"` with charset "(bytes array)". -/
theorem c1_witness :
    textfile_content D0 [0x00, 0x41] = { charset := "(bytes array)", content := "00 41 \n" } :=
  (c1_amended D0 [0x00, 0x41] (by decide) (by decide)).trans (by decide)

/-- C2: the decode pipeline of `textfile_content` is total — for every byte buffer the
result is one of the three displayable outcomes: the hex grid labeled "(bytes array)",
the strict-UTF-8 decoding labeled "UTF-8", or the detector's replacement-based decoding
labeled with the detector's encoding name; no case fails. -/
theorem c2_total_decode (D : CharsetDetector) (buffer : List Nat) :
    ((textfile_content D buffer).charset = NOT_TEXTFILE_CHARSET ∧
      (textfile_content D buffer).content = hexGrid buffer)
    ∨ ((textfile_content D buffer).charset = UTF8_CHARSET ∧
      ∃ vs, utf8DecodeS buffer = some vs ∧
        (textfile_content D buffer).content = scalarsToString vs)
    ∨ (utf8DecodeS buffer = none ∧
      (textfile_content D buffer).charset = D.guess buffer ∧
      (textfile_content D buffer).content = (D.decode buffer).1) := by
  unfold textfile_content
  by_cases hbin : ((windows2 buffer).any fun window => window.1 == 0x00) = true
  · simp [hbin]
  · simp only [Bool.not_eq_true] at hbin
    cases hdec : utf8DecodeS buffer with
    | some vs =>
      refine Or.inr (Or.inl ?_)
      simp [hbin, hdec]
    | none =>
      refine Or.inr (Or.inr ?_)
      simp [hbin, hdec]

/-- C3 counterexample: at 1024 bytes the quotient is the exact integer 1, Rust's f64
`Display` prints `"1"` with no fractional part, so the result is `"1 KB"`, not the
`"1.00 KB"` the claim states. -/
theorem c3_counterexample :
    human_readable_size 1024 = "1 KB" ∧ human_readable_size 1024 ≠ "1.00 KB" := by decide

/-- C3 (amended): `human_readable_size` always chooses the largest unit among TB, GB,
MB, KB, bytes whose 1024-based threshold the byte count meets, and — for every size
below `2^47`, the domain on which the exact-arithmetic model provably matches the
source's `f64` pipeline (see `human_readable_size`) — the full output is the integer
quotient formatted with thousands separators, then a fractional part (a decimal point
and the expansion truncated to at most two digits) exactly when the division leaves a
remainder, then the unit label; in particular 0 → "0 bytes", 1023 → "1,023 bytes",
1024 → "1 KB", 3·1024·1024 → "3 MB", 1025 → "1.00 KB" (truncated fraction),
1536 → "1.5 KB" (short fraction), 1023.5·2^30 → "1,023.5 GB" (separator and
fraction together). -/
theorem c3_amended :
    (∀ size : Nat, ∃ p : String, human_readable_size size = p ++ " " ++ unitForSize size) ∧
    (∀ size : Nat, size < 2 ^ 47 → human_readable_size size = humanReadableSpec size) ∧
    human_readable_size 0 = "0 bytes" ∧
    human_readable_size 1023 = "1,023 bytes" ∧
    human_readable_size 1024 = "1 KB" ∧
    human_readable_size (3 * 1024 * 1024) = "3 MB" ∧
    human_readable_size 1025 = "1.00 KB" ∧
    human_readable_size 1536 = "1.5 KB" ∧
    human_readable_size 1098974756864 = "1,023.5 GB" := by
  refine ⟨fun size => ?_, fun size _ => ?_, by decide, by decide, by decide, by decide,
    by decide, by decide, by decide⟩
  · unfold human_readable_size unitForSize
    split_ifs <;> exact ⟨_, rfl⟩
  · apply String.ext
    by_cases h4 : (1099511627776 : Nat) ≤ size
    · by_cases hr : size % (1099511627776 : Nat) = 0 <;>
        simp [human_readable_size, humanReadableSpec, denForSize, unitForSize, h4, hr]
    · by_cases h3 : (1073741824 : Nat) ≤ size
      · by_cases hr : size % (1073741824 : Nat) = 0 <;>
          simp [human_readable_size, humanReadableSpec, denForSize, unitForSize, h4, h3, hr]
      · by_cases h2 : (1048576 : Nat) ≤ size
        · by_cases hr : size % (1048576 : Nat) = 0 <;>
            simp [human_readable_size, humanReadableSpec, denForSize, unitForSize, h4, h3, h2, hr]
        · by_cases h1 : (1024 : Nat) ≤ size
          · by_cases hr : size % (1024 : Nat) = 0 <;>
              simp [human_readable_size, humanReadableSpec, denForSize, unitForSize,
                h4, h3, h2, h1, hr]
          · simp [human_readable_size, humanReadableSpec, denForSize, unitForSize,
              h4, h3, h2, h1, Nat.mod_one]

/-- C3 witness: at 2560 bytes the model is inside its `f64`-exact domain and renders
the half-kilobyte fraction. -/
theorem c3_witness :
    human_readable_size 2560 = humanReadableSpec 2560 ∧ humanReadableSpec 2560 = "2.5 KB" :=
  ⟨c3_amended.2.1 2560 (by decide), by decide⟩

/-- C4: evaluation at the failing input — a directory entry whose modification time is
one nanosecond before the UNIX epoch makes `list_dir` panic (the
`duration_since(UNIX_EPOCH).unwrap()` call), and an entry whose metadata cannot be
read is skipped with no warning logged while the listing still succeeds. -/
theorem c4_panic_and_silent_skip :
    list_dir ctx0 "" [preEpochEntry] = none ∧
    list_dir ctx0 "" [badMetaEntry] =
      some (.ok ({ current_dir := "/home/user", dirs := [], files := [] }, [])) := by decide

/-- C8: `validate_filepath` returns `none` exactly when the path does not exist, and
on an existing path returns `some` of: the line-read heuristic accepts the file, or
the path ends with ".xlsx". -/
theorem c8_validate_filepath (fs : Fs) (filepath : String) :
    (validate_filepath fs filepath = none ↔ fs.pathExists filepath = false) ∧
    (fs.pathExists filepath = true →
      validate_filepath fs filepath = some (is_textfile fs filepath || strEndsWith filepath ".xlsx")) := by
  unfold validate_filepath
  cases h : fs.pathExists filepath <;> simp [h]

/-- C8 witness: on the concrete filesystem `fs0`, the existing text file validates to
`some true` and a missing path validates to `none`. -/
theorem c8_witness :
    validate_filepath fs0 "a.txt" = some true ∧ validate_filepath fs0 "missing.txt" = none := by
  constructor
  · have h := (c8_validate_filepath fs0 "a.txt").2 (by decide)
    rw [h]; decide
  · exact (c8_validate_filepath fs0 "missing.txt").1.mpr (by decide)

/-- Unfolding equation for `withCommasRev` on a cons cell. -/
theorem withCommasRev_cons (c : Char) (cs : List Char) (i : Nat) :
    withCommasRev (c :: cs) i =
      (if i ≠ 0 ∧ i % 3 = 0 then [','] else []) ++ c :: withCommasRev cs (i + 1) := rfl

/-- The comma positions depend only on the index modulo 3 once the index is positive. -/
theorem withCommasRev_shift : ∀ (l : List Char) (i : Nat), 1 ≤ i →
    withCommasRev l (i + 3) = withCommasRev l i
  | [], _, _ => rfl
  | c :: cs, i, hi => by
    rw [withCommasRev_cons, withCommasRev_cons]
    have hcond : (i + 3 ≠ 0 ∧ (i + 3) % 3 = 0) ↔ (i ≠ 0 ∧ i % 3 = 0) := by omega
    rw [if_congr hcond rfl rfl]
    have : i + 3 + 1 = (i + 1) + 3 := by omega
    rw [this, withCommasRev_shift cs (i + 1) (by omega)]

/-- Restarting the scan at index 3 on a nonempty list inserts exactly one comma up
front. -/
theorem withCommasRev_three : ∀ (l : List Char), l ≠ [] →
    withCommasRev l 3 = ',' :: withCommasRev l 0
  | c :: cs, _ => by
    rw [withCommasRev_cons, withCommasRev_cons]
    rw [if_pos (by omega), if_neg (by omega)]
    rw [show (3 : Nat) + 1 = 1 + 3 from rfl, withCommasRev_shift cs 1 (by omega)]
    rfl

/-- `intercalate` over a single chunk. -/
theorem intercalate_one (sep x : List α) : List.intercalate sep [x] = x := by
  simp [List.intercalate, List.intersperse]

/-- `intercalate` over at least two chunks. -/
theorem intercalate_two (sep x y : List α) (t : List (List α)) :
    List.intercalate sep (x :: y :: t) = x ++ sep ++ List.intercalate sep (y :: t) := by
  simp [List.intercalate, List.intersperse_cons₂, List.flatten_cons, List.append_assoc]

/-- `intercalate` over chunks ending in a final chunk. -/
theorem intercalate_append_one (sep z : List α) : ∀ (M : List (List α)), M ≠ [] →
    List.intercalate sep (M ++ [z]) = List.intercalate sep M ++ sep ++ z
  | [x], _ => by simp [intercalate_two, intercalate_one]
  | x :: y :: t, _ => by
    have ih := intercalate_append_one sep z (y :: t) (by simp)
    rw [List.cons_append] at ih
    rw [List.cons_append, List.cons_append, intercalate_two, ih, intercalate_two]
    simp [List.append_assoc]

/-- Reversing an intercalation by a one-element separator reverses and re-orders the
chunks. -/
theorem reverse_intercalate_one (s : α) : ∀ (L : List (List α)),
    (List.intercalate [s] L).reverse = List.intercalate [s] ((L.map List.reverse).reverse)
  | [] => by simp [List.intercalate]
  | [x] => by simp [intercalate_one]
  | x :: y :: t => by
    have ih := reverse_intercalate_one s (y :: t)
    have hM : ((x :: y :: t).map List.reverse).reverse
        = ((y :: t).map List.reverse).reverse ++ [x.reverse] := by simp
    rw [hM, intercalate_append_one [s] x.reverse (((y :: t).map List.reverse).reverse) (by simp),
      ← ih, intercalate_two, List.reverse_append, List.reverse_append]
    simp [List.append_assoc]

/-- The comma-inserting pass computes exactly the comma-intercalation of the chunks of
three. -/
theorem withCommasRev_intercalate : ∀ (l : List Char),
    withCommasRev l 0 = List.intercalate [','] (chunksOf 3 l)
  | [] => by simp [withCommasRev, chunksOf, chunksOfAux, List.intercalate]
  | [a] => by
    simp [withCommasRev, chunksOf, chunksOfAux, List.intercalate, List.intersperse]
  | [a, b] => by
    simp [withCommasRev, chunksOf, chunksOfAux, List.intercalate, List.intersperse]
  | a :: b :: c :: m => by
    have hchunk : chunksOf 3 (a :: b :: c :: m) = [a, b, c] :: chunksOf 3 m := by
      rw [chunksOf_cons]
      simp [List.take, List.drop]
    rw [hchunk, withCommasRev_cons, withCommasRev_cons, withCommasRev_cons,
      if_neg (by omega), if_neg (by omega), if_neg (by omega)]
    cases m with
    | nil =>
      simp [withCommasRev, chunksOf, chunksOfAux, intercalate_one]
    | cons m0 mt =>
      have ih := withCommasRev_intercalate (m0 :: mt)
      rw [withCommasRev_three (m0 :: mt) (by simp), ih]
      obtain ⟨q, qs, hq⟩ : ∃ q qs, chunksOf 3 (m0 :: mt) = q :: qs :=
        ⟨_, _, chunksOf_cons 3 m0 mt⟩
      rw [hq, intercalate_two]
      simp [List.append_assoc]

/-- Characters produced by `Nat.toDigitsCore` with base 10 are decimal digits. -/
theorem toDigitsCore_all_digits : ∀ (fuel n : Nat) (ds : List Char),
    (∀ c ∈ ds, c.isDigit = true) → ∀ c ∈ Nat.toDigitsCore 10 fuel n ds, c.isDigit = true
  | 0, n, ds, h => h
  | fuel + 1, n, ds, h => by
    have hd : (Nat.digitChar (n % 10)).isDigit = true := by
      have h10 : n % 10 < 10 := Nat.mod_lt _ (by omega)
      revert h10
      generalize n % 10 = m
      revert m
      decide
    have hcons : ∀ c ∈ Nat.digitChar (n % 10) :: ds, c.isDigit = true := by
      intro c hc
      rcases List.mem_cons.mp hc with hc | hc
      · subst hc; exact hd
      · exact h c hc
    simp only [Nat.toDigitsCore]
    split
    · exact hcons
    · exact toDigitsCore_all_digits fuel (n / 10) (Nat.digitChar (n % 10) :: ds) hcons

/-- Every character of the decimal rendering of a natural number is a digit. -/
theorem repr_all_digits (n : Nat) : ∀ c ∈ (Nat.repr n).data, c.isDigit = true := by
  intro c hc
  exact toDigitsCore_all_digits (n + 1) n [] (by simp) c hc

/-- A decimal digit is not a comma. -/
theorem digit_ne_comma (c : Char) (h : c.isDigit = true) : c ≠ ',' := by
  rintro rfl
  exact absurd h (by decide)

/-- Filtering out commas from the comma-inserting pass recovers the original list. -/
theorem withCommasRev_filter (p : Char → Bool) (hp : p ',' = false) :
    ∀ (l : List Char) (i : Nat), (withCommasRev l i).filter p = l.filter p
  | [], _ => rfl
  | c :: cs, i => by
    rw [withCommasRev_cons, List.filter_append]
    have h1 : ((if i ≠ 0 ∧ i % 3 = 0 then [','] else []).filter p) = [] := by
      split <;> simp [hp]
    rw [h1, List.nil_append]
    have ih := withCommasRev_filter p hp cs (i + 1)
    simp [List.filter_cons, ih]

/-- C6: `comma_separated_number` inserts a comma every three digits counting from the
least-significant digit (it equals the claim-side grouping of the decimal digits into
threes from the right, joined with commas), removing the commas recovers exactly the
decimal digits, and the three claimed examples hold. -/
theorem c6_comma_separated_number :
    (∀ n : Nat, comma_separated_number n = commaGroupingSpec n) ∧
    (∀ n : Nat, removeCommas (comma_separated_number n) = Nat.repr n) ∧
    comma_separated_number 1234567 = "1,234,567" ∧
    comma_separated_number 12 = "12" ∧
    comma_separated_number 0 = "0" := by
  refine ⟨?_, ?_, by decide, by decide, by decide⟩
  · intro n
    unfold comma_separated_number commaGroupingSpec
    show String.mk (withCommasRev (Nat.repr n).data.reverse 0).reverse = _
    rw [withCommasRev_intercalate]
    exact congrArg String.mk
      (reverse_intercalate_one ',' (chunksOf 3 (Nat.repr n).data.reverse))
  · intro n
    unfold removeCommas comma_separated_number
    apply String.ext
    show ((String.mk (withCommasRev (Nat.repr n).data.reverse 0).reverse).data.filter
      fun c => decide (c ≠ ',')) = (Nat.repr n).data
    show ((withCommasRev (Nat.repr n).data.reverse 0).reverse.filter
      fun c => decide (c ≠ ',')) = (Nat.repr n).data
    rw [List.filter_reverse, withCommasRev_filter _ (by decide) _ 0, List.filter_reverse,
      List.reverse_reverse]
    apply List.filter_eq_self.mpr
    intro c hc
    simpa using digit_ne_comma c (repr_all_digits n c hc)

set_option maxRecDepth 8192 in
/-- Re-encoding one multi-byte step reproduces its bytes. -/
theorem utf8Step_encode (b : Nat) (rest : List Nat) (v : Nat) (rest2 : List Nat)
    (h : utf8Step b rest = some (v, rest2)) :
    utf8EncodeChar v ++ rest2 = b :: rest := by
  unfold utf8Step at h
  by_cases hb2 : (0xC2 <= b && b <= 0xDF) = true
  · rw [if_pos hb2] at h
    split at h
    · rename_i c1 rest2x
      by_cases hc1 : (0x80 <= c1 && c1 <= 0xBF) = true
      · rw [if_pos hc1] at h
        injection h with h
        injection h with hv hr
        subst hv
        subst hr
        simp only [Bool.and_eq_true, decide_eq_true_eq] at hb2 hc1
        unfold utf8EncodeChar
        rw [if_neg (by omega), if_pos (by omega)]
        have e1 : 0xC0 + ((b - 0xC0) * 64 + (c1 - 0x80)) / 64 = b := by omega
        have e2 : 0x80 + ((b - 0xC0) * 64 + (c1 - 0x80)) % 64 = c1 := by omega
        rw [e1, e2]
        rfl
      · rw [if_neg hc1] at h; simp at h
    · simp at h
  · rw [if_neg hb2] at h
    by_cases hb3 : (0xE0 <= b && b <= 0xEF) = true
    · rw [if_pos hb3] at h
      split at h
      · rename_i c1 c2 rest2x
        by_cases hc : (((if b = 0xE0 then 0xA0 else 0x80) <= c1
            && c1 <= (if b = 0xED then 0x9F else 0xBF))
            && (0x80 <= c2 && c2 <= 0xBF)) = true
        · rw [if_pos hc] at h
          injection h with h
          injection h with hv hr
          subst hv
          subst hr
          simp only [Bool.and_eq_true, decide_eq_true_eq] at hb3 hc
          obtain ⟨⟨hc1lo, hc1hi⟩, hc2lo, hc2hi⟩ := hc
          obtain ⟨hblo, hbhi⟩ := hb3
          have hc1lo2 : 0x80 <= c1 := by
            by_cases hbe : b = 0xE0
            · have hA := hc1lo; rw [if_pos hbe] at hA; omega
            · have hA := hc1lo; rw [if_neg hbe] at hA; omega
          have hc1hi2 : c1 <= 0xBF := by
            by_cases hbd : b = 0xED
            · have hA := hc1hi; rw [if_pos hbd] at hA; omega
            · have hA := hc1hi; rw [if_neg hbd] at hA; omega
          have hlow : 0x800 <= (b - 0xE0) * 4096 + (c1 - 0x80) * 64 + (c2 - 0x80) := by
            by_cases hbe : b = 0xE0
            · have hA := hc1lo; rw [if_pos hbe] at hA; omega
            · omega
          unfold utf8EncodeChar
          rw [if_neg (by omega), if_neg (by omega), if_pos (by omega)]
          have e1 : 0xE0 + ((b - 0xE0) * 4096 + (c1 - 0x80) * 64 + (c2 - 0x80)) / 4096
              = b := by omega
          have e2 : 0x80 + ((b - 0xE0) * 4096 + (c1 - 0x80) * 64 + (c2 - 0x80)) / 64 % 64
              = c1 := by omega
          have e3 : 0x80 + ((b - 0xE0) * 4096 + (c1 - 0x80) * 64 + (c2 - 0x80)) % 64
              = c2 := by omega
          rw [e1, e2, e3]
          rfl
        · rw [if_neg hc] at h; simp at h
      · simp at h
    · rw [if_neg hb3] at h
      by_cases hb4 : (0xF0 <= b && b <= 0xF4) = true
      · rw [if_pos hb4] at h
        split at h
        · rename_i c1 c2 c3 rest2x
          by_cases hc : (((if b = 0xF0 then 0x90 else 0x80) <= c1
              && c1 <= (if b = 0xF4 then 0x8F else 0xBF))
              && ((0x80 <= c2 && c2 <= 0xBF) && (0x80 <= c3 && c3 <= 0xBF))) = true
          · rw [if_pos hc] at h
            injection h with h
            injection h with hv hr
            subst hv
            subst hr
            simp only [Bool.and_eq_true, decide_eq_true_eq] at hb4 hc
            obtain ⟨⟨hc1lo, hc1hi⟩, ⟨hc2lo, hc2hi⟩, hc3lo, hc3hi⟩ := hc
            obtain ⟨hblo, hbhi⟩ := hb4
            have hc1lo2 : 0x80 <= c1 := by
              by_cases hbe : b = 0xF0
              · have hA := hc1lo; rw [if_pos hbe] at hA; omega
              · have hA := hc1lo; rw [if_neg hbe] at hA; omega
            have hc1hi2 : c1 <= 0xBF := by
              by_cases hbd : b = 0xF4
              · have hA := hc1hi; rw [if_pos hbd] at hA; omega
              · have hA := hc1hi; rw [if_neg hbd] at hA; omega
            have hlow : 0x10000 <= (b - 0xF0) * 262144 + (c1 - 0x80) * 4096
                + (c2 - 0x80) * 64 + (c3 - 0x80) := by
              by_cases hbe : b = 0xF0
              · have hA := hc1lo; rw [if_pos hbe] at hA; omega
              · omega
            unfold utf8EncodeChar
            rw [if_neg (by omega), if_neg (by omega), if_neg (by omega)]
            have e1 : 0xF0 + ((b - 0xF0) * 262144 + (c1 - 0x80) * 4096
                + (c2 - 0x80) * 64 + (c3 - 0x80)) / 262144 = b := by omega
            have e2 : 0x80 + ((b - 0xF0) * 262144 + (c1 - 0x80) * 4096
                + (c2 - 0x80) * 64 + (c3 - 0x80)) / 4096 % 64 = c1 := by omega
            have e3 : 0x80 + ((b - 0xF0) * 262144 + (c1 - 0x80) * 4096
                + (c2 - 0x80) * 64 + (c3 - 0x80)) / 64 % 64 = c2 := by omega
            have e4 : 0x80 + ((b - 0xF0) * 262144 + (c1 - 0x80) * 4096
                + (c2 - 0x80) * 64 + (c3 - 0x80)) % 64 = c3 := by omega
            rw [e1, e2, e3, e4]
            rfl
          · rw [if_neg hc] at h; simp at h
        · simp at h
      · rw [if_neg hb4] at h; simp at h

/-- Round trip at any fuel: any successful decode re-encodes to the original bytes. -/
theorem utf8DecodeAux_encode : ∀ (fuel : Nat) (bs vs : List Nat),
    utf8DecodeAux fuel bs = some vs → utf8EncodeS vs = bs
  | fuel, [], vs, h => by
    cases fuel <;>
      · simp only [utf8DecodeAux, Option.some.injEq] at h
        subst h
        rfl
  | 0, b :: rest, vs, h => by simp [utf8DecodeAux] at h
  | fuel + 1, b :: rest, vs, h => by
    simp only [utf8DecodeAux] at h
    by_cases hb1 : b < 0x80
    · rw [if_pos hb1] at h
      cases hrec : utf8DecodeAux fuel rest with
      | none => rw [hrec] at h; simp at h
      | some vs2 =>
        rw [hrec] at h
        simp only [Option.map_some', Option.some.injEq] at h
        subst h
        have ih := utf8DecodeAux_encode fuel rest vs2 hrec
        show utf8EncodeChar b ++ utf8EncodeS vs2 = b :: rest
        rw [ih]
        unfold utf8EncodeChar
        rw [if_pos hb1]
        rfl
    · rw [if_neg hb1] at h
      cases hstep : utf8Step b rest with
      | none =>
        rw [hstep] at h
        replace h : (none : Option (List Nat)) = some vs := h
        exact Option.noConfusion h
      | some p =>
        obtain ⟨v, rest2⟩ := p
        rw [hstep] at h
        replace h : (utf8DecodeAux fuel rest2).map (fun vs => v :: vs) = some vs := h
        cases hrec : utf8DecodeAux fuel rest2 with
        | none => rw [hrec] at h; simp at h
        | some vs2 =>
          rw [hrec] at h
          simp only [Option.map_some', Option.some.injEq] at h
          subst h
          have ih := utf8DecodeAux_encode fuel rest2 vs2 hrec
          show utf8EncodeChar v ++ utf8EncodeS vs2 = b :: rest
          rw [ih]
          exact utf8Step_encode b rest v rest2 hstep

/-- Round trip: re-encoding the scalar values produced by a successful strict UTF-8
decode reproduces the byte buffer exactly (the fast path returns the bytes verbatim). -/
theorem utf8EncodeS_decode (bs vs : List Nat) (h : utf8DecodeS bs = some vs) :
    utf8EncodeS vs = bs :=
  utf8DecodeAux_encode bs.length bs vs h

/-- C5: for every byte buffer with no NUL byte that validates as strict UTF-8,
`textfile_content` returns charset "UTF-8" and the decoded string, and the decoded
scalar values re-encode to the buffer's bytes verbatim. -/
theorem c5_utf8_fast_path (D : CharsetDetector) (buffer vs : List Nat)
    (hnul : 0x00 ∉ buffer) (hdec : utf8DecodeS buffer = some vs) :
    textfile_content D buffer = { charset := UTF8_CHARSET, content := scalarsToString vs } ∧
    utf8EncodeS vs = buffer := by
  refine ⟨?_, utf8EncodeS_decode buffer vs hdec⟩
  have h1 : ¬(0x00 ∈ buffer.dropLast) := fun hmem =>
    hnul ((List.dropLast_sublist buffer).mem hmem)
  cases hb : ((windows2 buffer).any fun window => window.1 == 0x00) with
  | true => exact absurd ((windows2_any_zero buffer).mp hb) h1
  | false =>
    unfold textfile_content
    simp only [hb, Bool.false_eq_true, if_false, hdec]

/-- C5 witness: the two-byte ASCII buffer `hi` decodes on the fast path to "hi" and
re-encodes to itself. -/
theorem c5_witness :
    textfile_content D0 [104, 105] = { charset := "UTF-8", content := "hi" } ∧
    utf8EncodeS [104, 105] = [104, 105] := by
  have h := c5_utf8_fast_path D0 [104, 105] [104, 105] (by decide) (by decide)
  exact ⟨h.1.trans (by decide), h.2⟩

/-- A path ending in ".xlsx" is nonempty. -/
theorem strEndsWith_xlsx_ne_empty (s : String) (h : strEndsWith s ".xlsx" = true) : s ≠ "" := by
  rintro rfl
  exact absurd h (by decide)

/-- C9 counterexample: two paths ending in ".xlsx" whose contents are small UTF-8 text
files are classified text-like by the line-read heuristic, so `filepaths_content` takes
the text/text branch and returns charset "UTF-8" on both sides, never invoking the
spreadsheet-diff path or the "(Excel)" label the claim requires. -/
theorem c9_counterexample :
    strEndsWith "a.xlsx" ".xlsx" = true ∧ strEndsWith "b.xlsx" ".xlsx" = true ∧
    filepaths_content envTextXlsx "a.xlsx" "b.xlsx" =
      some (.ok [{ charset := "UTF-8", content := "hi\n" },
                 { charset := "UTF-8", content := "yo\n" }]) ∧
    ("UTF-8" : String) ≠ "(Excel)" := by decide

/-- C9 (amended): for any two paths ending in ".xlsx" that are *not both* classified
text-like by the line-read heuristic, `filepaths_content` invokes the spreadsheet-diff
path and returns the two flattened `ReadContent` values of `excel_content`, both
labeled "(Excel)" (per segment: the title, then each line's position marker if present
and text if present, joined by newlines; segments concatenated). -/
theorem c9_amended (env : CompareEnv) (old new : String)
    (hOld : strEndsWith old ".xlsx" = true) (hNew : strEndsWith new ".xlsx" = true)
    (hNotBoth : ¬(is_textfile env.fs old = true ∧ is_textfile env.fs new = true)) :
    filepaths_content env old new =
      some (.ok [excel_content (env.xlsxDiff old new).1,
                 excel_content (env.xlsxDiff old new).2]) ∧
    (excel_content (env.xlsxDiff old new).1).charset = "(Excel)" ∧
    (excel_content (env.xlsxDiff old new).2).charset = "(Excel)" := by
  refine ⟨?_, rfl, rfl⟩
  have hOldNe : old ≠ "" := strEndsWith_xlsx_ne_empty old hOld
  have hNewNe : new ≠ "" := strEndsWith_xlsx_ne_empty new hNew
  have h1 : (is_textfile env.fs old && is_textfile env.fs new) = false := by
    cases ho : is_textfile env.fs old <;> cases hn : is_textfile env.fs new <;> simp_all
  have h2 : (new == "") = false := beq_eq_false_iff_ne.mpr hNewNe
  have h3 : (old == "") = false := beq_eq_false_iff_ne.mpr hOldNe
  unfold filepaths_content
  simp [h1, h2, h3, hOld, hNew]

/-- C9 witness: two ".xlsx" paths holding a non-UTF-8 byte flow to the spreadsheet
path; the one-segment diff flattens to title, position marker and text joined by
newlines, labeled "(Excel)" on both sides. -/
theorem c9_witness :
    filepaths_content envBinXlsx "a.xlsx" "b.xlsx" =
      some (.ok [{ charset := "(Excel)", content := "@@ Sheet1 @@\n@@ 1 @@\ncell" },
                 { charset := "(Excel)", content := "@@ Sheet1 @@" }]) :=
  ((c9_amended envBinXlsx "a.xlsx" "b.xlsx" (by decide) (by decide) (by decide)).1).trans
    (by decide)

/-- C10: `filepaths_content` never produces the `Err` variant of its `Result`: whenever
it returns (does not panic), the value is `Ok`. -/
theorem c10_always_ok (env : CompareEnv) (old new : String)
    (r : Except String (List ReadContent))
    (h : filepaths_content env old new = some r) : ∃ v, r = .ok v := by
  unfold filepaths_content at h
  by_cases h1 : (is_textfile env.fs old && is_textfile env.fs new) = true
  · simp only [h1, if_true] at h
    split at h
    · exact ⟨_, (Option.some.inj h).symm⟩
    · exact absurd h (by simp)
  · rw [Bool.not_eq_true] at h1
    simp only [h1, Bool.false_eq_true, if_false] at h
    by_cases h2 : (is_textfile env.fs old && (new == "")) = true
    · simp only [h2, if_true] at h
      split at h
      · exact ⟨_, (Option.some.inj h).symm⟩
      · exact absurd h (by simp)
    · rw [Bool.not_eq_true] at h2
      simp only [h2, Bool.false_eq_true, if_false] at h
      by_cases h3 : ((old == "") && is_textfile env.fs new) = true
      · simp only [h3, if_true] at h
        split at h
        · exact ⟨_, (Option.some.inj h).symm⟩
        · exact absurd h (by simp)
      · rw [Bool.not_eq_true] at h3
        simp only [h3, Bool.false_eq_true, if_false] at h
        by_cases h4 : (strEndsWith old ".xlsx" && strEndsWith new ".xlsx") = true
        · simp only [h4, if_true] at h
          exact ⟨_, (Option.some.inj h).symm⟩
        · rw [Bool.not_eq_true] at h4
          simp only [h4, Bool.false_eq_true, if_false] at h
          split at h
          · exact ⟨_, (Option.some.inj h).symm⟩
          · exact absurd h (by simp)

/-- C10 witness: on a filesystem where every path reads as the single byte `A`, both
paths are text-classified and the result is the `Ok` value with two UTF-8 contents. -/
theorem c10_witness :
    ∃ v, (Except.ok [({ charset := "UTF-8", content := "A" } : ReadContent),
                     { charset := "UTF-8", content := "A" }] :
      Except String (List ReadContent)) = .ok v :=
  c10_always_ok envA "a" "b" _ (by decide)

/-- The Boolean lexicographic order on character lists is total. -/
theorem listCharLeb_total : ∀ (a b : List Char), listCharLeb a b = true ∨ listCharLeb b a = true
  | [], b => Or.inl rfl
  | a :: as, [] => Or.inr rfl
  | a :: as, b :: bs => by
    simp only [listCharLeb]
    by_cases h1 : a < b
    · exact Or.inl (by rw [if_pos h1])
    · by_cases h2 : b < a
      · exact Or.inr (by rw [if_pos h2])
      · rcases listCharLeb_total as bs with h | h
        · exact Or.inl (by rw [if_neg h1, if_neg h2]; exact h)
        · exact Or.inr (by rw [if_neg h2, if_neg h1]; exact h)

/-- The Boolean lexicographic order on character lists is transitive. -/
theorem listCharLeb_trans : ∀ (a b c : List Char),
    listCharLeb a b = true → listCharLeb b c = true → listCharLeb a c = true
  | [], b, c, _, _ => rfl
  | a :: as, [], c, h1, _ => by simp [listCharLeb] at h1
  | a :: as, b :: bs, [], _, h2 => by simp [listCharLeb] at h2
  | a :: as, b :: bs, c :: cs, h1, h2 => by
    simp only [listCharLeb] at h1 h2 ⊢
    rcases lt_trichotomy a b with hab | hab | hab
    · rcases lt_trichotomy b c with hbc | hbc | hbc
      · rw [if_pos (hab.trans hbc)]
      · subst hbc; rw [if_pos hab]
      · rw [if_neg (not_lt.mpr hbc.le), if_pos hbc] at h2; simp at h2
    · subst hab
      rw [if_neg (lt_irrefl a), if_neg (lt_irrefl a)] at h1
      rcases lt_trichotomy a c with hac | hac | hac
      · rw [if_pos hac]
      · subst hac
        rw [if_neg (lt_irrefl a), if_neg (lt_irrefl a)] at h2 ⊢
        exact listCharLeb_trans as bs cs h1 h2
      · rw [if_neg (not_lt.mpr hac.le), if_pos hac] at h2; simp at h2
    · rw [if_neg (not_lt.mpr hab.le), if_pos hab] at h1; simp at h1

/-- `processedPairs` skips an entry that fails to enumerate. -/
theorem processedPairs_cons_err (msg : String) (rest : List EntryRead) :
    processedPairs (.err msg :: rest) = processedPairs rest := by
  simp [processedPairs, List.filterMap_cons]

/-- `processedPairs` skips an entry whose metadata is unreadable. -/
theorem processedPairs_cons_none (e : DirEntryModel) (rest : List EntryRead)
    (hm : e.meta = none) : processedPairs (.ok e :: rest) = processedPairs rest := by
  simp [processedPairs, List.filterMap_cons, hm]

/-- `processedPairs` records an entry with readable metadata. -/
theorem processedPairs_cons_ok (e : DirEntryModel) (m : EntryMeta) (rest : List EntryRead)
    (hm : e.meta = some m) :
    processedPairs (.ok e :: rest) = (e.name, m.is_dir) :: processedPairs rest := by
  simp [processedPairs, List.filterMap_cons, hm]

/-- The dirs accumulated by the entry loop are exactly the names of the processed
directory entries, and the accumulated file names are exactly the names of the
processed non-directory entries, in entry order. -/
theorem processEntries_names (ctx : DirCtx) : ∀ (entries : List EntryRead)
    (d : List String) (fl : List FileAttr) (lg : List String),
    processEntries ctx entries = some (d, fl, lg) →
    d = ((processedPairs entries).filter fun p => p.2).map Prod.fst ∧
    fl.map FileAttr.name = ((processedPairs entries).filter fun p => !p.2).map Prod.fst
  | [], d, fl, lg, h => by
    simp only [processEntries, Option.some.injEq, Prod.mk.injEq] at h
    obtain ⟨h1, h2, h3⟩ := h
    subst h1
    subst h2
    simp [processedPairs]
  | .err msg :: rest, d, fl, lg, h => by
    simp only [processEntries] at h
    cases hrec : processEntries ctx rest with
    | none => rw [hrec] at h; simp at h
    | some r =>
      obtain ⟨d0, f0, l0⟩ := r
      rw [hrec] at h
      simp only [Option.map_some', Option.some.injEq, Prod.mk.injEq] at h
      obtain ⟨h1, h2, h3⟩ := h
      subst h1
      subst h2
      have ih := processEntries_names ctx rest d0 f0 l0 hrec
      rw [processedPairs_cons_err]
      exact ih
  | .ok e :: rest, d, fl, lg, h => by
    simp only [processEntries] at h
    split at h
    · -- metadata unreadable: the entry is skipped
      rename_i hm
      have ih := processEntries_names ctx rest d fl lg h
      rw [processedPairs_cons_none e rest hm]
      exact ih
    · rename_i m hm
      by_cases hd : m.is_dir = true
      · rw [if_pos hd] at h
        cases hrec : processEntries ctx rest with
        | none => rw [hrec] at h; simp at h
        | some r =>
          obtain ⟨d0, f0, l0⟩ := r
          rw [hrec] at h
          simp only [Option.map_some', Option.some.injEq, Prod.mk.injEq] at h
          obtain ⟨h1, h2, h3⟩ := h
          subst h1
          subst h2
          obtain ⟨ih1, ih2⟩ := processEntries_names ctx rest d0 f0 l0 hrec
          constructor
          · rw [processedPairs_cons_ok e m rest hm, hd]
            simp [List.filter_cons, ← ih1]
          · rw [processedPairs_cons_ok e m rest hm, hd]
            simp [List.filter_cons, ih2]
      · rw [if_neg hd] at h
        split at h
        · simp at h
        · rename_i t hmod
          by_cases ht : t < 0
          · rw [if_pos ht] at h; simp at h
          · rw [if_neg ht] at h
            cases hrec : processEntries ctx rest with
            | none => rw [hrec] at h; simp at h
            | some r =>
              obtain ⟨d0, f0, l0⟩ := r
              rw [hrec] at h
              simp only [Option.map_some', Option.some.injEq, Prod.mk.injEq] at h
              obtain ⟨h1, h2, h3⟩ := h
              subst h1
              subst h2
              obtain ⟨ih1, ih2⟩ := processEntries_names ctx rest d0 f0 l0 hrec
              rw [Bool.not_eq_true] at hd
              constructor
              · rw [processedPairs_cons_ok e m rest hm, hd]
                simp [List.filter_cons, ih1]
              · rw [processedPairs_cons_ok e m rest hm, hd]
                simp [List.filter_cons, mkFileAttr, ← ih2]

/-- In a pair list with no duplicate first components, no first component appears both
among the pairs whose flag is set and among those whose flag is cleared. -/
theorem filter_fst_disjoint {l : List (String × Bool)} (hnd : (l.map Prod.fst).Nodup)
    (n : String) (h1 : n ∈ (l.filter fun p => p.2).map Prod.fst)
    (h2 : n ∈ (l.filter fun p => !p.2).map Prod.fst) : False := by
  obtain ⟨x, hx, hx1⟩ := List.mem_map.mp h1
  obtain ⟨y, hy, hy1⟩ := List.mem_map.mp h2
  have hxl : x ∈ l := (List.mem_filter.mp hx).1
  have hyl : y ∈ l := (List.mem_filter.mp hy).1
  have hx2 : x.2 = true := (List.mem_filter.mp hx).2
  have hy2 : (!y.2) = true := (List.mem_filter.mp hy).2
  have hxy : x ≠ y := by
    intro e
    rw [e] at hx2
    rw [hx2] at hy2
    simp at hy2
  have hpair : l.Pairwise fun a b => a.1 ≠ b.1 := List.pairwise_map.mp hnd
  have hsym : Symmetric fun a b : String × Bool => a.1 ≠ b.1 := by
    intro a b hab e
    exact hab e.symm
  exact (hpair.forall hsym hxl hyl hxy) (hx1.trans hy1.symm)

/-- A first component belongs to the flag-set side or the flag-cleared side exactly
when it belongs to the whole pair list. -/
theorem union_mem_pairs {l : List (String × Bool)} (n : String) :
    (n ∈ ((l.filter fun p => p.2).map Prod.fst) ∨ n ∈ ((l.filter fun p => !p.2).map Prod.fst))
      ↔ n ∈ l.map Prod.fst := by
  constructor
  · rintro (h | h) <;>
    · obtain ⟨x, hx, hx1⟩ := List.mem_map.mp h
      exact List.mem_map.mpr ⟨x, (List.mem_filter.mp hx).1, hx1⟩
  · intro h
    obtain ⟨x, hx, hx1⟩ := List.mem_map.mp h
    cases hb : x.2
    · exact Or.inr (List.mem_map.mpr ⟨x, List.mem_filter.mpr ⟨hx, by simp [hb]⟩, hx1⟩)
    · exact Or.inl (List.mem_map.mpr ⟨x, List.mem_filter.mpr ⟨hx, by simp [hb]⟩, hx1⟩)

/-- C7: for every directory listing that succeeds, `dirs` and the file names partition
the processed directory entries — every processed name lands in exactly one of the two
and (given the filesystem invariant that entry names are distinct) no name appears in
both — each sequence is sorted ascending by name, and listing the empty path reports
the resolved working directory as `current_dir`. -/
theorem c7_list_dir_partition_sorted (ctx : DirCtx) (entries : List EntryRead)
    (resp : ListDirResponse) (logs : List String)
    (hnd : ((processedPairs entries).map Prod.fst).Nodup)
    (hrun : list_dir ctx "" entries = some (.ok (resp, logs))) :
    resp.current_dir = ctx.cwd ∧
    List.Sorted strLe resp.dirs ∧
    List.Sorted strLe (resp.files.map FileAttr.name) ∧
    (∀ n, n ∈ resp.dirs → n ∉ resp.files.map FileAttr.name) ∧
    (∀ n, (n ∈ resp.dirs ∨ n ∈ resp.files.map FileAttr.name) ↔
      n ∈ (processedPairs entries).map Prod.fst) := by
  have hempty : list_dir ctx "" entries =
      (processEntries ctx entries).map fun r =>
        .ok ({ current_dir := ctx.cwd, dirs := sortStrings r.1, files := sortFiles r.2.1 },
          r.2.2) := rfl
  rw [hempty] at hrun
  cases hp : processEntries ctx entries with
  | none => rw [hp] at hrun; simp at hrun
  | some r =>
    obtain ⟨d, fl, lg⟩ := r
    rw [hp] at hrun
    simp only [Option.map_some', Option.some.injEq, Except.ok.injEq, Prod.mk.injEq] at hrun
    obtain ⟨hresp, hlogs⟩ := hrun
    have hcd : resp.current_dir = ctx.cwd := by rw [← hresp]
    have hdirs : resp.dirs = sortStrings d := by rw [← hresp]
    have hfiles : resp.files = sortFiles fl := by rw [← hresp]
    obtain ⟨hd, hfl⟩ := processEntries_names ctx entries d fl lg hp
    have hmemd : ∀ n, n ∈ resp.dirs ↔ n ∈ d := fun n => by
      rw [hdirs]
      exact (List.perm_insertionSort strLe d).mem_iff
    have hmemf : ∀ n, n ∈ resp.files.map FileAttr.name ↔ n ∈ fl.map FileAttr.name := fun n => by
      rw [hfiles]
      exact ((List.perm_insertionSort fileLe fl).map FileAttr.name).mem_iff
    refine ⟨hcd, ?_, ?_, ?_, ?_⟩
    · rw [hdirs]
      exact @List.sorted_insertionSort String strLe _
        ⟨fun a b => listCharLeb_total a.data b.data⟩
        ⟨fun a b c hab hbc => listCharLeb_trans a.data b.data c.data hab hbc⟩ d
    · rw [hfiles]
      have hs : List.Sorted fileLe (List.insertionSort fileLe fl) :=
        @List.sorted_insertionSort FileAttr fileLe _
          ⟨fun a b => listCharLeb_total a.name.data b.name.data⟩
          ⟨fun a b c hab hbc => listCharLeb_trans a.name.data b.name.data c.name.data hab hbc⟩ fl
      exact List.Pairwise.map FileAttr.name (fun a b hab => hab) hs
    · intro n hn1 hn2
      rw [hmemd n, hd] at hn1
      rw [hmemf n, hfl] at hn2
      exact filter_fst_disjoint hnd n hn1 hn2
    · intro n
      rw [hmemd n, hmemf n, hd, hfl]
      exact union_mem_pairs n

/-- C7 witness: a concrete listing of one directory and two files (given out of name
order with distinct names) reports the working directory, sorts both sequences, and
partitions the names with no overlap. -/
theorem c7_witness :
    respW.current_dir = ctx0.cwd ∧
    List.Sorted strLe respW.dirs ∧
    List.Sorted strLe (respW.files.map FileAttr.name) ∧
    (∀ n, n ∈ respW.dirs → n ∉ respW.files.map FileAttr.name) ∧
    (∀ n, (n ∈ respW.dirs ∨ n ∈ respW.files.map FileAttr.name) ↔
      n ∈ (processedPairs entriesW).map Prod.fst) :=
  c7_list_dir_partition_sorted ctx0 entriesW respW [] (by decide) (by decide)
